import Mathlib

/-!
Verification of the Telegram mufti bot.

This file is a shallow embedding of the bot source (`bot.js`, together with
the earlier revision of the same program kept in the repository, which still
contains the explicit AssemblyAI polling loop).  Pure computations are
translated into Lean functions; the effectful boundary (HTTP transport, the
chat platform, the system clock) is passed in explicitly as oracle
parameters, so every definition stays executable and every handler becomes a
pure function from inputs and oracle behaviour to its outbound actions and
the updated state.
-/

/-- A chat identifier: the numeric id the chat platform attaches to a
conversation. -/
abbrev ChatId := Int

/-- The in-memory preference map `chatLanguagePreference`, modelled as an
insertion-ordered association list mirroring a JavaScript `Map`. -/
abbrev PrefStore := List (ChatId × String)

/-- Model of JavaScript `String.prototype.toLowerCase` for the strings the
bot compares (ASCII codes): lowercase every character.  (Core
`String.toLower` is extensionally the same but is defined by well-founded
recursion over byte positions, which blocks kernel evaluation.) -/
def jsToLower (s : String) : String :=
  String.mk (s.data.map Char.toLower)

/-- Lookup mirroring `Map.prototype.get`; `none` models JS `undefined`. -/
def mapGet (store : PrefStore) (key : ChatId) : Option String :=
  match store with
  | [] => none
  | (k, v) :: rest => if k = key then some v else mapGet rest key

/-- Update mirroring `Map.prototype.set`: an existing key is overwritten in
place, a new key is appended at the end. -/
def mapSet (store : PrefStore) (key : ChatId) (value : String) : PrefStore :=
  match store with
  | [] => [(key, value)]
  | (k, v) :: rest =>
    if k = key then (key, value) :: rest else (k, v) :: mapSet rest key value

/-- Embedding of `getPreferredLanguageForChat` from `bot.js`:
`chatLanguagePreference.get(chatId) || 'en'`.  The `||` coalesces both JS
`undefined` (here `none`) and the falsy empty string to `'en'`. -/
def getPreferredLanguageForChat (store : PrefStore) (chatId : ChatId) : String :=
  match mapGet store chatId with
  | some v => if v = "" then "en" else v
  | none => "en"

/-- Embedding of `setPreferredLanguageForChat` from `bot.js`: the argument is
lowercased (`normalized`), rejected unless it is exactly `"en"` or `"ar"`,
and otherwise stored.  The returned pair is (returned boolean, new store). -/
def setPreferredLanguageForChat (store : PrefStore) (chatId : ChatId)
    (langCode : String) : Bool × PrefStore :=
  if jsToLower langCode ≠ "en" ∧ jsToLower langCode ≠ "ar" then (false, store)
  else (true, mapSet store chatId (jsToLower langCode))

/-- Reading back a key just written returns the written value. -/
theorem mapGet_mapSet_self (store : PrefStore) (k : ChatId) (v : String) :
    mapGet (mapSet store k v) k = some v := by
  induction store with
  | nil => simp [mapSet, mapGet]
  | cons p rest ih =>
    obtain ⟨k', v'⟩ := p
    by_cases h : k' = k
    · simp [mapSet, mapGet, h]
    · simp [mapSet, mapGet, h, ih]

/-- Writing one key leaves every other key's binding unchanged. -/
theorem mapGet_mapSet_ne (store : PrefStore) (k k' : ChatId) (v : String)
    (h : k ≠ k') : mapGet (mapSet store k v) k' = mapGet store k' := by
  induction store with
  | nil => simp [mapSet, mapGet, h]
  | cons p rest ih =>
    obtain ⟨k0, v0⟩ := p
    by_cases h0 : k0 = k
    · simp [mapSet, mapGet, h0, h]
    · simp [mapSet, mapGet, h0, ih]

/-- Folding a list of `set` calls over the empty store: the state of the
preference map after an arbitrary sequence of `set(chatId, code)` calls. -/
def applySets (ops : List (ChatId × String)) : PrefStore :=
  ops.foldl (fun store p => (setPreferredLanguageForChat store p.1 p.2).2) []

/-- A chat id never set with a valid code has no binding after any sequence
of `set` calls (auxiliary, generalized over the starting store). -/
theorem mapGet_foldl_set_none (c : ChatId) :
    ∀ (ops : List (ChatId × String)),
      (∀ p ∈ ops, p.1 = c → ¬(jsToLower p.2 = "en" ∨ jsToLower p.2 = "ar")) →
      ∀ store : PrefStore, mapGet store c = none →
        mapGet (ops.foldl
          (fun store p => (setPreferredLanguageForChat store p.1 p.2).2) store) c
          = none := by
  intro ops
  induction ops with
  | nil => intro _ store h0; simpa using h0
  | cons p rest ih =>
    intro h store h0
    have hrest : ∀ q ∈ rest, q.1 = c → ¬(jsToLower q.2 = "en" ∨ jsToLower q.2 = "ar") :=
      fun q hq => h q (List.mem_cons_of_mem p hq)
    simp only [List.foldl_cons]
    apply ih hrest
    by_cases hv : jsToLower p.2 ≠ "en" ∧ jsToLower p.2 ≠ "ar"
    · simpa [setPreferredLanguageForChat, hv] using h0
    · have hvalid : jsToLower p.2 = "en" ∨ jsToLower p.2 = "ar" := by tauto
      have hp1 : p.1 ≠ c := fun he => h p (List.mem_cons_self p rest) he hvalid
      simp only [setPreferredLanguageForChat, if_neg hv]
      rw [mapGet_mapSet_ne _ _ _ _ hp1]
      exact h0

/-- C1: the preference-store setter accepts exactly the codes `"en"` and
`"ar"` case-insensitively.  For every store, chat id `c`, and string `x`
whose lowercasing is `"en"` or `"ar"`, `set(c, x)` returns `true` and a
subsequent `get(c)` returns the lowercased code; for every other string,
`set(c, x)` returns `false` and the store is unchanged (so `get(c)` returns
the same value as before the call). -/
theorem set_language_validation :
    (∀ (store : PrefStore) (c : ChatId) (x : String),
       jsToLower x = "en" ∨ jsToLower x = "ar" →
       (setPreferredLanguageForChat store c x).1 = true ∧
       getPreferredLanguageForChat (setPreferredLanguageForChat store c x).2 c
         = jsToLower x) ∧
    (∀ (store : PrefStore) (c : ChatId) (x : String),
       ¬(jsToLower x = "en" ∨ jsToLower x = "ar") →
       (setPreferredLanguageForChat store c x).1 = false ∧
       (setPreferredLanguageForChat store c x).2 = store) := by
  constructor
  · intro store c x hx
    have hne : ¬(jsToLower x ≠ "en" ∧ jsToLower x ≠ "ar") := by tauto
    refine ⟨by simp [setPreferredLanguageForChat, hne], ?_⟩
    simp only [setPreferredLanguageForChat, if_neg hne]
    simp only [getPreferredLanguageForChat, mapGet_mapSet_self]
    rcases hx with h | h <;> rw [h] <;> simp
  · intro store c x hx
    have hne : jsToLower x ≠ "en" ∧ jsToLower x ≠ "ar" := by tauto
    simp [setPreferredLanguageForChat, hne]

/-- Witness for C1 at concrete inputs: `"EN"` is accepted (and read back as
`"en"`), `"fr"` is rejected leaving the empty store unchanged. -/
theorem set_language_validation_witness :
    ((setPreferredLanguageForChat [] 7 "EN").1 = true ∧
     getPreferredLanguageForChat (setPreferredLanguageForChat [] 7 "EN").2 7
       = jsToLower "EN") ∧
    ((setPreferredLanguageForChat [] 7 "fr").1 = false ∧
     (setPreferredLanguageForChat [] 7 "fr").2 = []) :=
  ⟨set_language_validation.1 [] 7 "EN" (by left; decide),
   set_language_validation.2 [] 7 "fr" (by decide)⟩

/-- C2: for every chat id on which `set` was never called with a valid code
(including never called at all), `get` returns the default `"en"`. -/
theorem get_default_english (ops : List (ChatId × String)) (c : ChatId)
    (h : ∀ p ∈ ops, p.1 = c → ¬(jsToLower p.2 = "en" ∨ jsToLower p.2 = "ar")) :
    getPreferredLanguageForChat (applySets ops) c = "en" := by
  have hnone : mapGet (applySets ops) c = none :=
    mapGet_foldl_set_none c ops h [] rfl
  simp [getPreferredLanguageForChat, hnone]

/-- Witness for C2: after `set(1, "fr")` and `set(2, "ar")`, chat 1 (never
set with a valid code) still reads back `"en"`. -/
theorem get_default_english_witness :
    getPreferredLanguageForChat (applySets [(1, "fr"), (2, "ar")]) 1 = "en" :=
  get_default_english [(1, "fr"), (2, "ar")] 1 (by decide)

/-- The JavaScript word-character class `\w` = `[A-Za-z0-9_]`, used by the
`\b` word-boundary assertions in the command regexes. -/
def isWordChar (c : Char) : Bool :=
  ('a' ≤ c && c ≤ 'z') || ('A' ≤ c && c ≤ 'Z') || ('0' ≤ c && c ≤ '9') || c = '_'

/-- The JavaScript whitespace class `\s`, restricted to its ASCII members
(space, tab, line feed, carriage return, vertical tab, form feed). -/
def isSpaceJS (c : Char) : Bool :=
  c = ' ' || c = '\t' || c = '\n' || c = '\r' || c = '\x0b' || c = '\x0c'

/-- Match of `/^\/start\b/i` against the message text (as a character
list): a literal `/start` (case-insensitive) followed by a word boundary,
i.e. the end of the string or a non-word character. -/
def matchSlashStart (text : List Char) : Bool :=
  match text with
  | '/' :: c1 :: c2 :: c3 :: c4 :: c5 :: rest =>
    (c1.toLower = 's' && c2.toLower = 't' && c3.toLower = 'a' &&
     c4.toLower = 'r' && c5.toLower = 't') &&
    (match rest with
     | [] => true
     | c :: _ => !isWordChar c)
  | _ => false

/-- The `(en|ar)\b` part of the `/lang` regex: succeeds when the list starts
with `en` or `ar` (case-insensitive) followed by a word boundary, returning
the raw matched two characters (the regex group before `.toLowerCase()`). -/
def codeAtBoundary (l : List Char) : Option String :=
  match l with
  | a :: b :: rest =>
    if ((a.toLower = 'e' && b.toLower = 'n') ||
        (a.toLower = 'a' && b.toLower = 'r')) &&
       (match rest with
        | [] => true
        | c :: _ => !isWordChar c) then
      some (String.mk [a, b])
    else none
  | _ => none

/-- Match of `/^\/lang(?:\s+(en|ar))?\b/i` with its backtracking behaviour:
`none` means no match at all; `some none` a match with an empty group;
`some (some g)` a match whose group captured `g`.  After the literal
`/lang`, the optional group needs at least one whitespace character and then
`en`/`ar` at a word boundary; when the group attempt fails the regex falls
back to requiring a word boundary directly after `/lang`. -/
def matchSlashLang (text : List Char) : Option (Option String) :=
  match text with
  | '/' :: c1 :: c2 :: c3 :: c4 :: rest =>
    if c1.toLower = 'l' && c2.toLower = 'a' && c3.toLower = 'n' &&
       c4.toLower = 'g' then
      match rest with
      | [] => some none
      | c :: _ =>
        if isSpaceJS c then
          match codeAtBoundary (rest.dropWhile isSpaceJS) with
          | some g => some (some g)
          | none => some none
        else if isWordChar c then none
        else some none
    else none
  | _ => none

/-- Outbound effects a handler can perform through the chat platform.  A
`sendReply` is the `sendMessage(…, {parse_mode:'Markdown'}).catch(() =>
sendMessage(…))` pair: a rich delivery with a plain-text fallback, modelled
as one delivery action. -/
inductive BotAction where
  | sendPlain (text : String)
  | sendMenu (text : String)
  | sendReply (text : String)
  | queryLLM (input : String) (target : String)
  | answerCallback
  | editReplyMarkup
deriving DecidableEq

/-- Arabic confirmation text sent after the preference is set to Arabic. -/
def arConfirmMsg : String := "تم تعيين لغة الرد إلى العربية."

/-- English confirmation text sent after the preference is set to English. -/
def enConfirmMsg : String := "Response language set to English."

/-- The chooser message re-offering the two language buttons. -/
def chooseLanguageMsg : String := "Choose response language:"

/-- Arabic `/start` welcome text. -/
def arWelcomeMsg : String := "مرحبًا! أرسل سؤالك، وسأجيبك بإجابات مفصلة. اختر لغة الرد:"

/-- English `/start` welcome text. -/
def enWelcomeMsg : String := "Welcome! Send your question and I will provide a detailed answer. Choose your response language:"

/-- Embedding of the `bot.on('text')` handler: `/start` shows the welcome
menu, `/lang` with a captured `en`/`ar` group sets the preference and
confirms, `/lang` without a valid group re-offers the chooser menu, and any
non-command text goes to the completion pipeline (abstracted as a
`queryLLM` action carrying the input and the stored target language).
Returns the updated store and the outbound actions. -/
def handleText (store : PrefStore) (chatId : ChatId) (text : List Char) :
    PrefStore × List BotAction :=
  if matchSlashStart text then
    (store,
     [.sendMenu (if getPreferredLanguageForChat store chatId = "ar" then
        arWelcomeMsg else enWelcomeMsg)])
  else
    match matchSlashLang text with
    | some grp =>
      if jsToLower (grp.getD "") = "en" ∨ jsToLower (grp.getD "") = "ar" then
        ((setPreferredLanguageForChat store chatId (jsToLower (grp.getD ""))).2,
         [.sendPlain (if jsToLower (grp.getD "") = "ar" then arConfirmMsg
            else enConfirmMsg)])
      else
        (store, [.sendMenu chooseLanguageMsg])
    | none =>
      (store, [.queryLLM (String.mk text) (getPreferredLanguageForChat store chatId)])

/-- Model of JavaScript `String.prototype.startsWith` (kernel-computable,
via the character lists). -/
def jsStartsWith (s pre : String) : Bool :=
  pre.data.isPrefixOf s.data

/-- Auxiliary for `jsSplitChar`: walks the characters, cutting at each
separator; `acc` holds the current field reversed. -/
def jsSplitCharAux (sep : Char) : List Char → List Char → List String
  | [], acc => [String.mk acc.reverse]
  | c :: rest, acc =>
    if c = sep then
      String.mk acc.reverse :: jsSplitCharAux sep rest []
    else jsSplitCharAux sep rest (c :: acc)

/-- Model of JavaScript `String.prototype.split` with a one-character
separator: `"a:b".split(':') = ["a","b"]`, `"".split(':') = [""]`. -/
def jsSplitChar (sep : Char) (s : String) : List String :=
  jsSplitCharAux sep s.data []

/-- Embedding of the `bot.on('callback_query')` handler.  The chat id is
`query.message?.chat?.id` (`none` when the chain is absent); the JS guard
`if (!chatId || !data) return` also drops the falsy values `0` and the empty
string.  A payload `set_lang:<code>` with `code` exactly `en` or `ar` sets
the preference, acknowledges the callback, clears the inline keyboard and
sends the confirmation; anything else does nothing. -/
def handleCallback (store : PrefStore) (chatId : Option ChatId) (data : String) :
    PrefStore × List BotAction :=
  match chatId with
  | none => (store, [])
  | some c =>
    if c = 0 then (store, [])
    else if data = "" then (store, [])
    else if jsStartsWith data "set_lang:" then
      if (jsSplitChar ':' data).getD 1 "" = "en" ∨
         (jsSplitChar ':' data).getD 1 "" = "ar" then
        ((setPreferredLanguageForChat store c ((jsSplitChar ':' data).getD 1 "")).2,
         [.answerCallback, .editReplyMarkup,
          .sendPlain (if (jsSplitChar ':' data).getD 1 "" = "ar" then arConfirmMsg
            else enConfirmMsg)])
      else (store, [])
    else (store, [])

/-- C6: a callback query carrying `set_lang:ar` and a (present, non-falsy)
chat id updates the store entry for that chat to Arabic and performs exactly
one callback acknowledgement, one markup-clear, and one confirmation
message, in that order. -/
theorem callback_set_lang_ar (store : PrefStore) (c : ChatId) (h : c ≠ 0) :
    (handleCallback store (some c) "set_lang:ar").2 =
      [BotAction.answerCallback, BotAction.editReplyMarkup,
       BotAction.sendPlain arConfirmMsg] ∧
    getPreferredLanguageForChat (handleCallback store (some c) "set_lang:ar").1 c
      = "ar" := by
  have hstart : jsStartsWith "set_lang:ar" "set_lang:" = true := by decide
  have hsplit : jsSplitChar ':' "set_lang:ar" = ["set_lang", "ar"] := by decide
  have hlower : jsToLower "ar" = "ar" := by decide
  have hcb : handleCallback store (some c) "set_lang:ar" =
      (mapSet store c "ar",
       [BotAction.answerCallback, BotAction.editReplyMarkup,
        BotAction.sendPlain arConfirmMsg]) := by
    simp [handleCallback, if_neg h, hstart, hsplit, setPreferredLanguageForChat,
      hlower]
  rw [hcb]
  refine ⟨rfl, ?_⟩
  simp [getPreferredLanguageForChat, mapGet_mapSet_self]

/-- Witness for C6 at chat id 5. -/
theorem callback_set_lang_ar_witness :
    (handleCallback [] (some 5) "set_lang:ar").2 =
      [BotAction.answerCallback, BotAction.editReplyMarkup,
       BotAction.sendPlain arConfirmMsg] ∧
    getPreferredLanguageForChat (handleCallback [] (some 5) "set_lang:ar").1 5
      = "ar" :=
  callback_set_lang_ar [] 5 (by decide)

/-- C9 counterexample: the message `/lang ar%` carries the argument `ar%`,
which is neither `en` nor `ar`, yet the handler does not re-offer the menu
and does modify the store: the regex group `(en|ar)\b` captures `ar` because
`%` is a word boundary, so the preference is set to Arabic and the Arabic
confirmation is sent. -/
theorem lang_arg_ar_percent_sets_arabic :
    (handleText [] 1 ("/lang ar%".data)).2
      ≠ [BotAction.sendMenu chooseLanguageMsg] ∧
    (handleText [] 1 ("/lang ar%".data)).1 ≠ [] ∧
    (handleText [] 1 ("/lang ar%".data)).2 = [BotAction.sendPlain arConfirmMsg] ∧
    getPreferredLanguageForChat (handleText [] 1 ("/lang ar%".data)).1 1
      = "ar" := by
  decide

/-- Reduction of the `/lang` regex match on `/lang ` followed by anything:
the literal and the mandatory whitespace are consumed, leaving the
group-versus-fallback decision on the rest (proved definitionally). -/
theorem matchSlashLang_space_cons (arg : List Char) :
    matchSlashLang ('/' :: 'l' :: 'a' :: 'n' :: 'g' :: ' ' :: arg)
      = match codeAtBoundary ((' ' :: arg).dropWhile isSpaceJS) with
        | some g => some (some g)
        | none => some none := rfl

/-- C9 (amended): a `/lang` message with no argument, or with a
whitespace-free argument that does not begin with `en`/`ar` at a word
boundary, re-offers the chooser menu and leaves the store unchanged. -/
theorem lang_unknown_arg_reoffers_menu :
    (∀ (store : PrefStore) (chatId : ChatId) (arg : List Char),
       arg ≠ [] → (∀ ch ∈ arg, isSpaceJS ch = false) →
       codeAtBoundary arg = none →
       handleText store chatId ('/' :: 'l' :: 'a' :: 'n' :: 'g' :: ' ' :: arg)
         = (store, [BotAction.sendMenu chooseLanguageMsg])) ∧
    (∀ (store : PrefStore) (chatId : ChatId),
       handleText store chatId ("/lang".data)
         = (store, [BotAction.sendMenu chooseLanguageMsg])) := by
  constructor
  · intro store chatId arg hne hsp hcode
    have hstart : matchSlashStart ('/' :: 'l' :: 'a' :: 'n' :: 'g' :: ' ' :: arg)
        = false := rfl
    have hdrop : (' ' :: arg).dropWhile isSpaceJS = arg := by
      cases arg with
      | nil => exact absurd rfl hne
      | cons a tl =>
        have ha : isSpaceJS a = false := hsp a (List.mem_cons_self a tl)
        have hblank : isSpaceJS ' ' = true := by decide
        simp [List.dropWhile, ha, hblank]
    have hlang : matchSlashLang ('/' :: 'l' :: 'a' :: 'n' :: 'g' :: ' ' :: arg)
        = some none := by
      rw [matchSlashLang_space_cons, hdrop, hcode]
    simp [handleText, hstart, hlang, jsToLower]
  · intro store chatId
    have hstart : matchSlashStart ("/lang".data) = false := by decide
    have hlang : matchSlashLang ("/lang".data) = some none := by decide
    simp [handleText, hstart, hlang, jsToLower]

/-- Witness for the amended C9: the argument `fr` (not starting with `en` or
`ar`) re-offers the menu and leaves the empty store empty. -/
theorem lang_unknown_arg_reoffers_menu_witness :
    handleText [] 3 ('/' :: 'l' :: 'a' :: 'n' :: 'g' :: ' ' :: ['f', 'r'])
      = ([], [BotAction.sendMenu chooseLanguageMsg]) :=
  lang_unknown_arg_reoffers_menu.1 [] 3 ['f', 'r'] (by decide) (by decide)
    (by decide)

/-- An inbound event that can write the preference store: a text message or
a callback query.  (The voice and audio handlers only read the store.) -/
inductive BotEvent where
  | text (chatId : ChatId) (msg : List Char)
  | callback (chatId : Option ChatId) (data : String)

/-- One dispatcher step, keeping only the store component. -/
def stepStore (store : PrefStore) (ev : BotEvent) : PrefStore :=
  match ev with
  | .text c msg => (handleText store c msg).1
  | .callback c data => (handleCallback store c data).1

/-- The preference store after the dispatcher processes a sequence of
events, starting from the empty map the process boots with. -/
def runBot (events : List BotEvent) : PrefStore :=
  events.foldl stepStore []

/-- The C10 invariant: every value stored in the map is exactly `"en"` or
`"ar"`. -/
def prefInvariant (store : PrefStore) : Prop :=
  ∀ k v, mapGet store k = some v → v = "en" ∨ v = "ar"

/-- Inserting an `"en"`/`"ar"` value preserves the invariant. -/
theorem prefInvariant_mapSet {store : PrefStore} {k : ChatId} {v : String}
    (h : prefInvariant store) (hv : v = "en" ∨ v = "ar") :
    prefInvariant (mapSet store k v) := by
  intro k' v' hget
  by_cases hk : k = k'
  · subst hk
    rw [mapGet_mapSet_self] at hget
    cases hget
    exact hv
  · rw [mapGet_mapSet_ne _ _ _ _ hk] at hget
    exact h k' v' hget

/-- The setter preserves the invariant for every argument: it either leaves
the store unchanged or inserts one of the two valid codes. -/
theorem prefInvariant_set (store : PrefStore) (c : ChatId) (x : String)
    (h : prefInvariant store) :
    prefInvariant (setPreferredLanguageForChat store c x).2 := by
  by_cases hv : jsToLower x ≠ "en" ∧ jsToLower x ≠ "ar"
  · simpa [setPreferredLanguageForChat, hv] using h
  · have hvalid : jsToLower x = "en" ∨ jsToLower x = "ar" := by tauto
    simp only [setPreferredLanguageForChat, if_neg hv]
    exact prefInvariant_mapSet h hvalid

/-- The text handler writes the store only through the setter. -/
theorem prefInvariant_handleText (store : PrefStore) (c : ChatId)
    (msg : List Char) (h : prefInvariant store) :
    prefInvariant (handleText store c msg).1 := by
  unfold handleText
  cases hs : matchSlashStart msg
  · simp only [Bool.false_eq_true, if_false]
    cases hm : matchSlashLang msg with
    | none => exact h
    | some grp =>
      by_cases hc : jsToLower (grp.getD "") = "en" ∨ jsToLower (grp.getD "") = "ar"
      · simp only [if_pos hc]
        exact prefInvariant_set store c _ h
      · simp only [if_neg hc]
        exact h
  · simp only [if_true]
    exact h

/-- The callback handler writes the store only through the setter. -/
theorem prefInvariant_handleCallback (store : PrefStore)
    (chatId : Option ChatId) (data : String) (h : prefInvariant store) :
    prefInvariant (handleCallback store chatId data).1 := by
  unfold handleCallback
  cases chatId with
  | none => exact h
  | some c =>
    by_cases h0 : c = 0
    · simpa [h0] using h
    · simp only [if_neg h0]
      by_cases hd : data = ""
      · simpa [hd] using h
      · simp only [if_neg hd]
        cases hsw : jsStartsWith data "set_lang:"
        · simpa using h
        · simp only [if_true]
          by_cases hc : (jsSplitChar ':' data).getD 1 "" = "en" ∨
              (jsSplitChar ':' data).getD 1 "" = "ar"
          · simp only [if_pos hc]
            exact prefInvariant_set store c _ h
          · simp only [if_neg hc]
            exact h

/-- C10: after any sequence of text-command and callback events, every value
stored in the preference map is exactly `"en"` or `"ar"`, and consequently
`get` returns exactly `"en"` or `"ar"` for every chat id. -/
theorem pref_values_invariant (events : List BotEvent) :
    (∀ k v, mapGet (runBot events) k = some v → v = "en" ∨ v = "ar") ∧
    (∀ c, getPreferredLanguageForChat (runBot events) c = "en" ∨
          getPreferredLanguageForChat (runBot events) c = "ar") := by
  have hinv : prefInvariant (runBot events) := by
    unfold runBot
    have hgen : ∀ (evs : List BotEvent) (start : PrefStore),
        prefInvariant start → prefInvariant (evs.foldl stepStore start) := by
      intro evs
      induction evs with
      | nil => intro start h; simpa using h
      | cons ev rest ih =>
        intro start h
        simp only [List.foldl_cons]
        apply ih
        cases ev with
        | text c msg => exact prefInvariant_handleText start c msg h
        | callback c data => exact prefInvariant_handleCallback start c data h
    exact hgen events [] (fun k v hget => by simp [mapGet] at hget)
  refine ⟨hinv, fun c => ?_⟩
  unfold getPreferredLanguageForChat
  cases hget : mapGet (runBot events) c with
  | none => left; rfl
  | some v => rcases hinv c v hget with h | h <;> simp [h]

/-- Witness for C10: after the callback event `set_lang:ar` on chat 1, the
stored value `"ar"` read back from the map is one of the two valid codes. -/
theorem pref_values_invariant_witness : "ar" = "en" ∨ "ar" = "ar" :=
  (pref_values_invariant [BotEvent.callback (some 1) "set_lang:ar"]).1 1 "ar"
    (by decide)

/-- The record returned by `transcribeWithAssemblyAI` in `bot.js`:
`{ text, languageCode, languageConfidence }`, with the optional fields
`none` when the service performed no detection. -/
structure TranscriptResult where
  text : String
  languageCode : Option String
  languageConfidence : Option ℚ
deriving DecidableEq

/-- Apology sent when downloading the voice message fails. -/
def voiceDownloadApologyMsg : String :=
  "Sorry, I could not download your voice message."

/-- Apology sent when transcription or completion of a voice message fails. -/
def voiceApologyMsg : String :=
  "Sorry, I could not transcribe or process your voice message."

/-- Apology sent when downloading the audio file fails. -/
def audioDownloadApologyMsg : String :=
  "Sorry, I could not download your audio file."

/-- Apology sent when transcription or completion of an audio file fails. -/
def audioApologyMsg : String :=
  "Sorry, I could not transcribe or process your audio file."

/-- Embedding of the `bot.on('voice')` handler of `bot.js`.  The download,
the transcription call and the completion call are the oracle parameters
(`Except.error` carries the raw error text of a rejection).  The outer
`catch` answers a failed download with the download apology; the inner
`catch` answers any transcription or completion failure with the fixed
voice apology.  On success the reply is delivered with the
markdown-then-plain fallback (`sendReply`). -/
def handleVoice (store : PrefStore) (chatId : ChatId)
    (download : Except String String)
    (transcribe : String → Except String TranscriptResult)
    (llm : String → String → Option String → Except String String) :
    List BotAction :=
  match download with
  | .error _ => [.sendPlain voiceDownloadApologyMsg]
  | .ok savedPath =>
    match transcribe savedPath with
    | .error _ => [.sendPlain voiceApologyMsg]
    | .ok tr =>
      match llm tr.text (getPreferredLanguageForChat store chatId)
          tr.languageCode with
      | .error _ => [.sendPlain voiceApologyMsg]
      | .ok reply => [.sendReply reply]

/-- Embedding of the `bot.on('audio')` handler of `bot.js`, identical to the
voice handler except for the two apology texts. -/
def handleAudio (store : PrefStore) (chatId : ChatId)
    (download : Except String String)
    (transcribe : String → Except String TranscriptResult)
    (llm : String → String → Option String → Except String String) :
    List BotAction :=
  match download with
  | .error _ => [.sendPlain audioDownloadApologyMsg]
  | .ok savedPath =>
    match transcribe savedPath with
    | .error _ => [.sendPlain audioApologyMsg]
    | .ok tr =>
      match llm tr.text (getPreferredLanguageForChat store chatId)
          tr.languageCode with
      | .error _ => [.sendPlain audioApologyMsg]
      | .ok reply => [.sendReply reply]

/-- C5: whenever transcription, or the completion call after it, fails on a
voice or audio message, the handler sends exactly one fixed apology message;
the apology text is a constant that does not depend on the error, and the
raw error text never appears in the outbound actions. -/
theorem media_failure_fixed_apology :
    (∀ (store : PrefStore) (c : ChatId) (p : String)
       (t : String → Except String TranscriptResult)
       (l : String → String → Option String → Except String String)
       (e : String), t p = .error e →
       handleVoice store c (.ok p) t l = [BotAction.sendPlain voiceApologyMsg]) ∧
    (∀ (store : PrefStore) (c : ChatId) (p : String)
       (t : String → Except String TranscriptResult)
       (l : String → String → Option String → Except String String)
       (tr : TranscriptResult) (e : String), t p = .ok tr →
       l tr.text (getPreferredLanguageForChat store c) tr.languageCode
         = .error e →
       handleVoice store c (.ok p) t l = [BotAction.sendPlain voiceApologyMsg]) ∧
    (∀ (store : PrefStore) (c : ChatId) (p : String)
       (t : String → Except String TranscriptResult)
       (l : String → String → Option String → Except String String)
       (e : String), t p = .error e →
       handleAudio store c (.ok p) t l = [BotAction.sendPlain audioApologyMsg]) ∧
    (∀ (store : PrefStore) (c : ChatId) (p : String)
       (t : String → Except String TranscriptResult)
       (l : String → String → Option String → Except String String)
       (tr : TranscriptResult) (e : String), t p = .ok tr →
       l tr.text (getPreferredLanguageForChat store c) tr.languageCode
         = .error e →
       handleAudio store c (.ok p) t l = [BotAction.sendPlain audioApologyMsg]) := by
  refine ⟨?_, ?_, ?_, ?_⟩
  · intro store c p t l e ht
    simp [handleVoice, ht]
  · intro store c p t l tr e ht hl
    simp [handleVoice, ht, hl]
  · intro store c p t l e ht
    simp [handleAudio, ht]
  · intro store c p t l tr e ht hl
    simp [handleAudio, ht, hl]

/-- Witness for C5: a transcription stub failing with `"boom"` and a
completion stub failing with `"bang"` each produce exactly the fixed
apology on chat 9. -/
theorem media_failure_fixed_apology_witness :
    handleVoice [] 9 (.ok "f.oga") (fun _ => .error "boom")
        (fun _ _ _ => .ok "reply")
      = [BotAction.sendPlain voiceApologyMsg] ∧
    handleAudio [] 9 (.ok "f.mp3") (fun _ => .ok ⟨"hi", some "en", none⟩)
        (fun _ _ _ => .error "bang")
      = [BotAction.sendPlain audioApologyMsg] :=
  ⟨media_failure_fixed_apology.1 [] 9 "f.oga" (fun _ => .error "boom")
      (fun _ _ _ => .ok "reply") "boom" rfl,
   media_failure_fixed_apology.2.2.2 [] 9 "f.mp3"
      (fun _ => .ok ⟨"hi", some "en", none⟩) (fun _ _ _ => .error "bang")
      ⟨"hi", some "en", none⟩ "bang" rfl rfl⟩

/-- One entry of the `messages` array of the completion request. -/
structure ChatMessage where
  role : String
  content : String
deriving DecidableEq

/-- The body of the HTTP request `getMuftiResponseLLM` posts to the
completion service: `{model, messages, temperature, max_tokens}`.  The
temperature is kept as the literal numeral written in the source. -/
structure CompletionRequest where
  model : String
  messages : List ChatMessage
  temperature : String
  maxTokens : Nat
deriving DecidableEq

/-- The system prompt built in `getMuftiResponseLLM`: the five rule lines
joined with newlines, with the language rule chosen by
`respondInArabic := targetLanguage === 'ar'`. -/
def muftiSystemPrompt (targetLanguage : String) : String :=
  String.intercalate "\n"
    [ "You are an Islamic expert (mufti) who provides accurate, well-sourced answers grounded in the Qur\x27an, Sunnah, and recognized fiqh methodology."
    , "Follow these rules:"
    , if targetLanguage = "ar" then
        "- Always respond in Arabic. If the user\x27s message is not in Arabic, briefly translate/summarize it into Arabic first, then provide the answer in Arabic."
      else
        "- Always respond in English. If the user\x27s message is not in English, briefly translate/summarize it into English first, then provide the answer in English."
    , "- Provide a clear, detailed response with reasoning, relevant evidence, and practical guidance where applicable."
    , "- Briefly cite primary sources when relevant (e.g., Qur\x27an 2:286; Sahih Muslim), without overly long quotations."
    , "- Be respectful, avoid political or sectarian bias, and prefer mainstream scholarly consensus when applicable."
    ]

/-- The completion request `getMuftiResponseLLM` builds from its three
arguments `(userInput, targetLanguage, detectedLanguageCode)`.  As in the
source, the detected language code is accepted but read nowhere. -/
def buildMuftiRequest (userInput targetLanguage : String)
    (detectedLanguageCode : Option String) : CompletionRequest :=
  { model := "meta-llama/Meta-Llama-3.1-70B-Instruct-Turbo"
  , messages :=
      [ ⟨"system", muftiSystemPrompt targetLanguage⟩
      , ⟨"user", userInput⟩ ]
  , temperature := "0.2"
  , maxTokens := 900 }

/-- The part of the completion service response the code reads:
`response?.data?.choices?.[0]?.message?.content`, where `none` models any
break in the optional chain. -/
structure TogetherResponse where
  content : Option String
deriving DecidableEq

/-- Embedding of `getMuftiResponseLLM` from `bot.js`.  `togetherApiKey` is
the environment credential (`none` = unset, and the empty string is falsy
too); `post` is the HTTP transport, whose `Except.error` covers both
transport failures and non-2xx responses (axios rejects on both).  On a
missing credential the function throws; a transport error propagates; on a
successful response the content is defaulted to `''` and trimmed. -/
def getMuftiResponseLLM (togetherApiKey : Option String)
    (post : CompletionRequest → Except String TogetherResponse)
    (userInput targetLanguage : String) (detectedLanguageCode : Option String) :
    Except String String :=
  match togetherApiKey with
  | none => .error "Missing TOGETHER_API_KEY environment variable"
  | some key =>
    if key = "" then .error "Missing TOGETHER_API_KEY environment variable"
    else
      match post (buildMuftiRequest userInput targetLanguage
          detectedLanguageCode) with
      | .error e => .error e
      | .ok resp => .ok ((resp.content.getD "").trim)

/-- C7: the completion request — system prompt, messages, model and
parameters — is identical for any two detected-language-code values, and so
is the whole completion call: the detected language hint never changes any
part of the request, which depends only on the user content and the stored
preference passed as the target language. -/
theorem completion_request_ignores_detected_language
    (u t : String) (d1 d2 : Option String) :
    buildMuftiRequest u t d1 = buildMuftiRequest u t d2 ∧
    ∀ (key : Option String)
      (post : CompletionRequest → Except String TogetherResponse),
      getMuftiResponseLLM key post u t d1 = getMuftiResponseLLM key post u t d2 :=
  ⟨rfl, fun _ _ => rfl⟩

/-- Witness for C7: with detected hints `"ar"` and `"en"` the built requests
and the completion results coincide on a concrete call. -/
theorem completion_request_ignores_detected_language_witness :
    buildMuftiRequest "What is fasting?" "en" (some "ar")
      = buildMuftiRequest "What is fasting?" "en" (some "en") ∧
    getMuftiResponseLLM (some "k") (fun _ => .ok ⟨some "Answer"⟩)
        "What is fasting?" "en" (some "ar")
      = getMuftiResponseLLM (some "k") (fun _ => .ok ⟨some "Answer"⟩)
        "What is fasting?" "en" (some "en") :=
  ⟨(completion_request_ignores_detected_language "What is fasting?" "en"
      (some "ar") (some "en")).1,
   (completion_request_ignores_detected_language "What is fasting?" "en"
      (some "ar") (some "en")).2 (some "k") (fun _ => .ok ⟨some "Answer"⟩)⟩

/-- C8: the completion client fails on a missing credential and propagates
transport and non-success failures; it never converts a failure into an
empty success: every successful result comes from a successful service
response, whose (defaulted, trimmed) content it returns verbatim — so an
empty success happens only when the service itself returned empty (or
absent) content. -/
theorem completion_no_silent_empty :
    (∀ (post : CompletionRequest → Except String TogetherResponse)
       (u t : String) (d : Option String),
       getMuftiResponseLLM none post u t d
         = .error "Missing TOGETHER_API_KEY environment variable") ∧
    (∀ (post : CompletionRequest → Except String TogetherResponse)
       (u t : String) (d : Option String),
       getMuftiResponseLLM (some "") post u t d
         = .error "Missing TOGETHER_API_KEY environment variable") ∧
    (∀ (key : String)
       (post : CompletionRequest → Except String TogetherResponse)
       (u t : String) (d : Option String) (e : String), key ≠ "" →
       post (buildMuftiRequest u t d) = .error e →
       getMuftiResponseLLM (some key) post u t d = .error e) ∧
    (∀ (key : String)
       (post : CompletionRequest → Except String TogetherResponse)
       (u t : String) (d : Option String) (s : String),
       getMuftiResponseLLM (some key) post u t d = .ok s →
       ∃ resp, post (buildMuftiRequest u t d) = .ok resp ∧
         s = (resp.content.getD "").trim) := by
  refine ⟨fun _ _ _ _ => rfl, fun _ _ _ _ => by simp [getMuftiResponseLLM],
    ?_, ?_⟩
  · intro key post u t d e hk hp
    simp [getMuftiResponseLLM, hk, hp]
  · intro key post u t d s h
    by_cases hk : key = ""
    · simp [getMuftiResponseLLM, hk] at h
    · cases hp : post (buildMuftiRequest u t d) with
      | error e => simp [getMuftiResponseLLM, hk, hp] at h
      | ok resp =>
        refine ⟨resp, rfl, ?_⟩
        simpa [getMuftiResponseLLM, hk, hp] using h.symm

/-- Witness for C8: a concrete transport error propagates, and the concrete
success `" Answer "` is returned trimmed from the service content. -/
theorem completion_no_silent_empty_witness :
    getMuftiResponseLLM (some "k") (fun _ => .error "HTTP 500") "q" "en" none
      = .error "HTTP 500" ∧
    ∃ resp, (fun (_ : CompletionRequest) =>
        (.ok ⟨some " Answer "⟩ : Except String TogetherResponse))
        (buildMuftiRequest "q" "en" none) = .ok resp ∧
      (" Answer " : String).trim = (resp.content.getD "").trim :=
  ⟨completion_no_silent_empty.2.2.1 "k" (fun _ => .error "HTTP 500") "q" "en"
      none "HTTP 500" (by decide) rfl,
   completion_no_silent_empty.2.2.2 "k" (fun _ => .ok ⟨some " Answer "⟩)
      "q" "en" none (" Answer ".trim) rfl⟩

/-- The status field of a transcript object returned by the AssemblyAI
polling endpoint. -/
inductive TranscriptStatus where
  | queued
  | processing
  | completed
  | error
deriving DecidableEq

/-- The part of a poll response the loop reads: `data.status`, `data.text`
(present on completion) and `data.error` (present on error status). -/
structure TranscriptData where
  status : TranscriptStatus
  text : Option String
  errorMsg : Option String
deriving DecidableEq

/-- The message of the exception thrown on error status:
`data.error || 'AssemblyAI transcription error'` (the `||` covers an absent
or empty `error` field). -/
def assemblyErrMsg (data : TranscriptData) : String :=
  match data.errorMsg with
  | some s => if s = "" then "AssemblyAI transcription error" else s
  | none => "AssemblyAI transcription error"

/-- The three ways the poll loop of `waitForTranscriptCompletion` can stop:
return the completed transcript, throw the service-reported error, or throw
the timeout error. -/
inductive PollOutcome where
  | completed (data : TranscriptData)
  | errored (msg : String)
  | timedOut
deriving DecidableEq

/-- One-step-per-iteration embedding of the `while (true)` loop of
`waitForTranscriptCompletion` (earlier revision, lines 69–82).  `respond i`
is the body of the i-th GET of the transcript, `clock i` the value of
`Date.now()` at the i-th timeout check, `startedAt` the clock reading taken
before the loop.  The loop returns the outcome together with the index of
the final poll (which equals the number of sleeps taken).  `fuel` bounds the
recursion; `none` models exhausting it without the loop deciding. -/
def waitLoop (respond : ℕ → TranscriptData) (clock : ℕ → ℕ)
    (startedAt timeoutMs : ℕ) : ℕ → ℕ → Option (PollOutcome × ℕ)
  | _, 0 => none
  | i, fuel + 1 =>
    match (respond i).status with
    | .completed => some (.completed (respond i), i)
    | .error => some (.errored (assemblyErrMsg (respond i)), i)
    | .queued =>
      if timeoutMs < clock i - startedAt then some (.timedOut, i)
      else waitLoop respond clock startedAt timeoutMs (i + 1) fuel
    | .processing =>
      if timeoutMs < clock i - startedAt then some (.timedOut, i)
      else waitLoop respond clock startedAt timeoutMs (i + 1) fuel

/-- The poll loop entry point: starts at iteration 0 with `timeoutMs + 2`
fuel, which the termination theorem shows is always enough once each poll
iteration advances the clock. -/
def waitForTranscriptCompletion (respond : ℕ → TranscriptData)
    (clock : ℕ → ℕ) (startedAt timeoutMs : ℕ) : Option (PollOutcome × ℕ) :=
  waitLoop respond clock startedAt timeoutMs 0 (timeoutMs + 2)

/-- A strictly advancing clock is bounded below by its start plus the number
of ticks. -/
theorem clock_lower_bound (clock : ℕ → ℕ) (hmono : ∀ i, clock i < clock (i + 1)) :
    ∀ i, clock 0 + i ≤ clock i := by
  intro i
  induction i with
  | zero => simp
  | succ n ih =>
    have := hmono n
    omega

/-- Main inductive specification of the poll loop: with fuel `timeoutMs + 2`
still available relative to the current iteration, the loop always returns
an outcome; every iteration `m` before the final one passed its timeout
check (so the loop never re-polls past the bound); and the outcome is
characterized by the final response and clock reading. -/
theorem waitLoop_spec (respond : ℕ → TranscriptData) (clock : ℕ → ℕ)
    (startedAt timeoutMs : ℕ)
    (hstart : startedAt ≤ clock 0)
    (hmono : ∀ i, clock i < clock (i + 1)) :
    ∀ fuel, 1 ≤ fuel → ∀ i, timeoutMs + 2 ≤ i + fuel →
      ∃ out n,
        waitLoop respond clock startedAt timeoutMs i fuel = some (out, n) ∧
        i ≤ n ∧
        (∀ m, i ≤ m → m < n → clock m - startedAt ≤ timeoutMs) ∧
        (match out with
         | .completed d => respond n = d ∧ (respond n).status = .completed
         | .errored msg =>
             (respond n).status = .error ∧ msg = assemblyErrMsg (respond n)
         | .timedOut =>
             timeoutMs < clock n - startedAt ∧
             (respond n).status ≠ .completed ∧ (respond n).status ≠ .error) := by
  have hlb : ∀ j, clock 0 + j ≤ clock j := clock_lower_bound clock hmono
  intro fuel
  induction fuel with
  | zero => intro h; exact absurd h (by omega)
  | succ f ih =>
    intro _ i hif
    cases hstatus : (respond i).status with
    | completed =>
      refine ⟨.completed (respond i), i, ?_, Nat.le_refl i, ?_, rfl, hstatus⟩
      · simp [waitLoop, hstatus]
      · intro m h1 h2; omega
    | error =>
      refine ⟨.errored (assemblyErrMsg (respond i)), i, ?_, Nat.le_refl i, ?_,
        hstatus, rfl⟩
      · simp [waitLoop, hstatus]
      · intro m h1 h2; omega
    | queued =>
      by_cases hto : timeoutMs < clock i - startedAt
      · refine ⟨.timedOut, i, ?_, Nat.le_refl i, ?_, hto, ?_, ?_⟩
        · simp [waitLoop, hstatus, hto]
        · intro m h1 h2; omega
        · simp [hstatus]
        · simp [hstatus]
      · have hci : startedAt + i ≤ clock i := by have := hlb i; omega
        have hf1 : 1 ≤ f := by omega
        obtain ⟨out, n, heq, hn, hm, hchar⟩ := ih hf1 (i + 1) (by omega)
        refine ⟨out, n, ?_, by omega, ?_, hchar⟩
        · simp [waitLoop, hstatus, hto, heq]
        · intro m h1 h2
          rcases Nat.eq_or_lt_of_le h1 with he | hlt
          · subst he; omega
          · exact hm m hlt h2
    | processing =>
      by_cases hto : timeoutMs < clock i - startedAt
      · refine ⟨.timedOut, i, ?_, Nat.le_refl i, ?_, hto, ?_, ?_⟩
        · simp [waitLoop, hstatus, hto]
        · intro m h1 h2; omega
        · simp [hstatus]
        · simp [hstatus]
      · have hci : startedAt + i ≤ clock i := by have := hlb i; omega
        have hf1 : 1 ≤ f := by omega
        obtain ⟨out, n, heq, hn, hm, hchar⟩ := ih hf1 (i + 1) (by omega)
        refine ⟨out, n, ?_, by omega, ?_, hchar⟩
        · simp [waitLoop, hstatus, hto, heq]
        · intro m h1 h2
          rcases Nat.eq_or_lt_of_le h1 with he | hlt
          · subst he; omega
          · exact hm m hlt h2

/-- C3: for every response sequence (each poll yielding one of the four
statuses) and every clock that starts at or after `startedAt` and advances
each iteration, the poll loop terminates with exactly one of the three
outcomes — the completed transcript, the service-reported error, or the
timeout once the elapsed time exceeds the bound — and it never re-polls
after an iteration whose elapsed time exceeded the bound. -/
theorem poll_loop_terminates (respond : ℕ → TranscriptData) (clock : ℕ → ℕ)
    (startedAt timeoutMs : ℕ)
    (hstart : startedAt ≤ clock 0)
    (hmono : ∀ i, clock i < clock (i + 1)) :
    ∃ out n,
      waitForTranscriptCompletion respond clock startedAt timeoutMs
        = some (out, n) ∧
      (∀ m, m < n → clock m - startedAt ≤ timeoutMs) ∧
      (match out with
       | .completed d => respond n = d ∧ (respond n).status = .completed
       | .errored msg =>
           (respond n).status = .error ∧ msg = assemblyErrMsg (respond n)
       | .timedOut =>
           timeoutMs < clock n - startedAt ∧
           (respond n).status ≠ .completed ∧ (respond n).status ≠ .error) := by
  obtain ⟨out, n, heq, hn, hm, hchar⟩ :=
    waitLoop_spec respond clock startedAt timeoutMs hstart hmono
      (timeoutMs + 2) (by omega) 0 (by omega)
  exact ⟨out, n, heq, fun m h2 => hm m (Nat.zero_le m) h2, hchar⟩

/-- Witness for C3: a service answering `error` on the first poll, under the
identity clock and a 5 ms bound, terminates with one of the outcomes. -/
theorem poll_loop_terminates_witness :
    ∃ out n,
      waitForTranscriptCompletion (fun _ => ⟨.error, none, some "bad audio"⟩)
        (fun i => i) 0 5 = some (out, n) ∧
      (∀ m, m < n → (fun i => i) m - 0 ≤ 5) ∧
      (match out with
       | .completed d =>
           (fun (_ : ℕ) => (⟨.error, none, some "bad audio"⟩ : TranscriptData)) n
             = d ∧ TranscriptStatus.error = TranscriptStatus.completed
       | .errored msg =>
           TranscriptStatus.error = TranscriptStatus.error ∧
           msg = assemblyErrMsg ⟨.error, none, some "bad audio"⟩
       | .timedOut =>
           5 < n - 0 ∧
           TranscriptStatus.error ≠ TranscriptStatus.completed ∧
           TranscriptStatus.error ≠ TranscriptStatus.error) := by
  obtain ⟨out, n, heq, hm, hchar⟩ :=
    poll_loop_terminates (fun _ => ⟨.error, none, some "bad audio"⟩)
      (fun i => i) 0 5 (Nat.zero_le 0) (fun i => Nat.lt_succ_self i)
  exact ⟨out, n, heq, hm, by cases out <;> simpa using hchar⟩

/-- Embedding of `transcribeWithAssemblyAI` of the earlier revision (lines
84–93): check the credential (absent or empty is falsy and throws), upload,
create the transcript job, run the poll loop, and return `result.text`.
`upload` and `create` are the two preceding HTTP calls as oracles; an
`Except.error` from either propagates (axios rejects).  The poll-loop
outcomes map to the source behaviour: `completed` returns the text,
`errored` rethrows the service message, `timedOut` throws the fixed timeout
message; `none` models the (never reached under C3) fuel exhaustion. -/
def transcribeWithAssemblyAI (apiKey : Option String)
    (upload : Except String String)
    (create : String → Except String String)
    (respond : ℕ → TranscriptData) (clock : ℕ → ℕ)
    (startedAt timeoutMs : ℕ) : Option (Except String (Option String)) :=
  match apiKey with
  | none => some (.error "Missing ASSEMBLY_API_KEY environment variable")
  | some key =>
    if key = "" then
      some (.error "Missing ASSEMBLY_API_KEY environment variable")
    else
      match upload with
      | .error e => some (.error e)
      | .ok uploadUrl =>
        match create uploadUrl with
        | .error e => some (.error e)
        | .ok _ =>
          match waitForTranscriptCompletion respond clock startedAt timeoutMs with
          | none => none
          | some (.completed data, _) => some (.ok data.text)
          | some (.errored msg, _) => some (.error msg)
          | some (.timedOut, _) =>
            some (.error "AssemblyAI transcription timed out")

/-- The C4 poll-response sequence: `processing` on the first two status
queries, then `completed` with text `"Hello"`. -/
def pollHello : ℕ → TranscriptData := fun i =>
  if i < 2 then ⟨.processing, none, none⟩ else ⟨.completed, some "Hello", none⟩

/-- C4: on the poll sequence {processing, processing, completed("Hello")}
with the clock advancing one 3000 ms interval per iteration (well within the
300 000 ms bound), the loop stops at final poll index 2 — that is, after
exactly 2 non-terminal polls and hence 2 sleeps and 3 status queries — with
the completed transcript, and `transcribe` resolves to the text `"Hello"`. -/
theorem transcribe_two_polls_hello :
    waitForTranscriptCompletion pollHello (fun i => 3000 * i) 0 300000
      = some (.completed ⟨.completed, some "Hello", none⟩, 2) ∧
    transcribeWithAssemblyAI (some "key") (.ok "https://upload")
        (fun _ => .ok "transcript-id") pollHello (fun i => 3000 * i) 0 300000
      = some (.ok (some "Hello")) := by
  constructor <;> rfl
